import Mathlib

/-!
Verification of the retrieval engine of the mental-health chatbot repository.

The development shallowly embeds the two core source components:

* `EmbeddingModel` (src/models/embeddings.py): the vector store — parallel
  `index` / `texts` / `metadata` arrays, `add_text`, `add_documents`,
  `search` (FAISS `IndexFlatL2` k-nearest-neighbour search returning squared
  Euclidean distances in ascending order), persistence (`save_index`,
  `_load_index`) and `clear_index`.
* `MentalHealthRAG` (src/utils/rag.py): `_load_knowledge_base`,
  `retrieve_knowledge` (crisis prioritization and length-bounded context
  packing), `_get_default_context`, `add_custom_knowledge`.

Modelling conventions: Python floats are modelled by `ℚ`; embedding vectors by
`List ℚ`; metadata dictionaries by association lists `List (String × String)`;
the external embedding provider and the external text chunker are parameters
(`embed : String → Vec`, `split : String → List String`); Python's stable
`list.sort` is modelled by a stable insertion sort, which computes the same
function as any stable sort; exceptions raised by external calls are modelled
by explicit boolean fault parameters placed exactly where the source has a
`try/except` around the corresponding call.
-/

/-! ### Python string primitives (character-list based, so they reduce) -/

/-- Python `str.lower()` (ASCII-faithful). -/
def pyLower (s : String) : String := String.mk (s.toList.map Char.toLower)

/-- Python `str.strip()`: remove leading and trailing whitespace. -/
def pyStrip (s : String) : String :=
  String.mk ((s.toList.dropWhile Char.isWhitespace).reverse.dropWhile Char.isWhitespace).reverse

/-- Python `str.title()`: first alphabetic character of every word upper-cased,
other alphabetic characters lower-cased; word boundaries are non-alphabetic. -/
def pyTitle (s : String) : String :=
  String.mk ((s.toList.foldl (fun (acc : List Char × Bool) c =>
    let c' := if c.isAlpha then (if acc.2 then c.toLower else c.toUpper) else c
    (c' :: acc.1, c.isAlpha)) ([], false)).1.reverse)

/-- Python `str.replace(a, b)` for single-character patterns (the source only
uses `.replace('_', ' ')`). -/
def pyReplaceChar (a b : Char) (s : String) : String :=
  String.mk (s.toList.map (fun c => if c = a then b else c))

/-- Python slice `s[:n]` for `n ≥ 0`. -/
def pyTake (s : String) (n : Nat) : String := String.mk (s.toList.take n)

/-- Python substring containment `pat in s`. -/
def strContains (s pat : String) : Bool :=
  let ls := s.toList
  let lp := pat.toList
  (List.range (ls.length + 1)).any (fun i => (ls.drop i).take lp.length == lp)

/-- Python `sep.join(parts)`. -/
def pyJoin (sep : String) : List String → String
  | [] => ""
  | a :: as => as.foldl (fun acc x => acc ++ sep ++ x) a

/-! ### Data model -/

/-- An embedding vector (`np.ndarray` of floats in the source). -/
abbrev Vec := List ℚ

/-- A metadata dictionary, as an insertion-ordered association list. -/
abbrev Meta := List (String × String)

/-- Python `dict.get(k)` (`None` when absent). -/
def metaGet (m : Meta) (k : String) : Option String :=
  (m.find? (fun p => p.1 == k)).map (fun p => p.2)

/-- Python `dict.get(k, d)`. -/
def metaGetD (m : Meta) (k d : String) : String := (metaGet m k).getD d

/-- Python dict assignment `m[k] = v`: update in place if the key exists,
otherwise append (insertion order preserved). -/
def metaSet (m : Meta) (k v : String) : Meta :=
  if (m.find? (fun p => p.1 == k)).isSome then
    m.map (fun p => if p.1 == k then (k, v) else p)
  else m ++ [(k, v)]

/-- Model of `np.any(vec)`: the vector has a non-zero component. -/
def isNonZero (v : Vec) : Bool := v.any (fun x => decide (x ≠ 0))

/-- Squared Euclidean distance, the metric of `faiss.IndexFlatL2`. -/
def l2sq (u v : Vec) : ℚ := ((u.zip v).map (fun p => (p.1 - p.2) ^ 2)).sum

/-- One element of the list returned by `EmbeddingModel.search`. -/
structure SearchResult where
  text : String
  metadata : Meta
  similarity : ℚ
  distance : ℚ
deriving DecidableEq

/-- The mutable state of `EmbeddingModel`: the FAISS index vectors and the two
parallel Python lists. -/
structure EmbeddingStore where
  index : List Vec
  texts : List String
  metadata : List Meta
deriving DecidableEq

/-- The state `EmbeddingModel.__init__` builds before `_load_index` runs. -/
def emptyStore : EmbeddingStore := ⟨[], [], []⟩

/-- An input document for `add_documents`. -/
structure Document where
  content : String
  metadata : Meta
deriving DecidableEq

/-! ### Stable sort (Python `list.sort`)

Python's `list.sort` is a stable sort; a stable sort is a unique function of
the comparison key, so the stable insertion sort below computes exactly the
function the source's sort computes. -/

/-- Insert `a` before the first element `b` with `le a b` (stable position). -/
def pyInsert (le : α → α → Bool) (a : α) : List α → List α
  | [] => [a]
  | b :: bs => if le a b then a :: b :: bs else b :: pyInsert le a bs

/-- Stable sort: ascending with respect to `le`, ties keep original order. -/
def pySort (le : α → α → Bool) : List α → List α
  | [] => []
  | a :: as => pyInsert le a (pySort le as)

/-! ### EmbeddingModel operations (src/models/embeddings.py) -/

/-- Model of `EmbeddingModel.add_text` (lines 78–97): skip empty/whitespace text, embed
the stripped text, and only when the embedding is non-zero append the vector
and `(stripped text, metadata or {})` to the three parallel structures. -/
def add_text (embed : String → Vec) (st : EmbeddingStore) (text : String)
    (metadata : Option Meta) : EmbeddingStore :=
  if pyStrip text = "" then st
  else
    let vec := embed (pyStrip text)
    if isNonZero vec then
      { index := st.index ++ [vec]
        texts := st.texts ++ [pyStrip text]
        metadata := st.metadata ++ [metadata.getD []] }
    else st

/-- Model of `EmbeddingModel.add_documents` (lines 99–123): for each document with
non-empty content, split it into chunks with the external splitter, stamp each
chunk's copied metadata with `chunk_id` and `total_chunks`, and `add_text` it. -/
def add_documents (embed : String → Vec) (split : String → List String)
    (st : EmbeddingStore) (documents : List Document) : EmbeddingStore :=
  documents.foldl (fun acc doc =>
    if doc.content = "" then acc
    else
      let chunks := split doc.content
      chunks.enum.foldl (fun acc2 ic =>
        add_text embed acc2 ic.2
          (some (metaSet (metaSet doc.metadata "chunk_id" (toString ic.1))
            "total_chunks" (toString chunks.length)))) acc) st

/-- The FAISS `IndexFlatL2.search` contract: the `n` nearest stored vectors by
squared Euclidean distance, as `(distance, index)` pairs in ascending distance
order (equal distances in ascending index order). -/
def faissSearch (index : List Vec) (q : Vec) (n : Nat) : List (ℚ × Nat) :=
  (pySort (fun a b => decide (a.1 < b.1 ∨ (a.1 = b.1 ∧ a.2 ≤ b.2)))
    (index.enum.map (fun p => (l2sq q p.2, p.1)))).take n

/-- Model of `max(0, 1 - distance / 4.0)` — the similarity normalization of
`EmbeddingModel.search` (line 152). -/
def similarityOf (d : ℚ) : ℚ := max 0 (1 - d / 4)

/-- The body of the result-building loop of `EmbeddingModel.search` (lines
149–160) for one `(distance, index)` pair: index-bounds check, similarity
conversion and inclusive threshold filter. -/
def candidateAt (st : EmbeddingStore) (score_threshold : ℚ)
    (di : ℚ × Nat) : Option SearchResult :=
  if di.2 < st.texts.length then
    if score_threshold ≤ similarityOf di.1 then
      some ⟨st.texts.getD di.2 "", st.metadata.getD di.2 [], similarityOf di.1, di.1⟩
    else none
  else none

/-- The `results` list `EmbeddingModel.search` builds in its loop (lines
148–160), before the final sort. -/
def searchCandidates (st : EmbeddingStore) (vec : Vec) (k : Nat)
    (score_threshold : ℚ) : List SearchResult :=
  (faissSearch st.index vec (min k st.texts.length)).filterMap
    (candidateAt st score_threshold)

/-- Model of `EmbeddingModel.search` (lines 125–170): guard against empty query, empty
store and zero query embedding, then sort the candidate results by similarity
descending (Python's stable `results.sort(..., reverse=True)`). -/
def search (embed : String → Vec) (st : EmbeddingStore) (query : String)
    (k : Nat) (score_threshold : ℚ) : List SearchResult :=
  if pyStrip query = "" ∨ st.texts.length = 0 then []
  else if !isNonZero (embed (pyStrip query)) then []
  else
    pySort (fun a b => decide (b.similarity ≤ a.similarity))
      (searchCandidates st (embed (pyStrip query)) k score_threshold)

/-- The persisted snapshot (`index.faiss` plus `data.pkl`). -/
structure Snapshot where
  index : List Vec
  texts : List String
  metadata : List Meta
deriving DecidableEq

/-- What `EmbeddingModel._load_index` finds on disk: both files missing (keep
the current state), both present and readable (adopt the stored data), or an
exception while reading (reset to an empty store, lines 264–269). -/
inductive LoadOutcome where
  | missing
  | ok (snap : Snapshot)
  | corrupt
deriving DecidableEq

/-- Model of `EmbeddingModel._load_index` (lines 242–269). -/
def load_index (st : EmbeddingStore) : LoadOutcome → EmbeddingStore
  | .missing => st
  | .ok snap => { index := snap.index, texts := snap.texts, metadata := snap.metadata }
  | .corrupt => { index := [], texts := [], metadata := [] }

/-- Model of `EmbeddingModel.save_index` (lines 217–240): the snapshot written to disk. -/
def save_index (st : EmbeddingStore) : Snapshot := ⟨st.index, st.texts, st.metadata⟩

/-- Model of `EmbeddingModel.clear_index` (lines 280–285). -/
def clear_index (_st : EmbeddingStore) : EmbeddingStore := ⟨[], [], []⟩

/-- The store operations available in the current design. -/
inductive StoreOp where
  | addText (text : String) (metadata : Option Meta)
  | addDocuments (documents : List Document)
  | load (outcome : LoadOutcome)
  | clear

/-- Apply one store operation. -/
def applyOp (embed : String → Vec) (split : String → List String)
    (st : EmbeddingStore) : StoreOp → EmbeddingStore
  | .addText t m => add_text embed st t m
  | .addDocuments ds => add_documents embed split st ds
  | .load oc => load_index st oc
  | .clear => clear_index st

/-- Run a sequence of store operations. -/
def runOps (embed : String → Vec) (split : String → List String)
    (st : EmbeddingStore) (ops : List StoreOp) : EmbeddingStore :=
  ops.foldl (applyOp embed split) st

/-! ### MentalHealthRAG (src/utils/rag.py) -/

/-- The crisis keyword list of `retrieve_knowledge` (line 191). -/
def crisisKeywordsRetrieve : List String :=
  ["suicide", "crisis", "emergency", "harm", "danger"]

/-- The crisis keyword list of `_get_default_context` (line 233). -/
def crisisKeywordsDefault : List String :=
  ["suicide", "crisis", "emergency", "harm", "danger", "die", "kill"]

/-- Model of `any(keyword in query.lower() for keyword in keywords)`. -/
def containsAnyKeyword (keywords : List String) (query : String) : Bool :=
  keywords.any (fun kw => strContains (pyLower query) kw)

/-- The hard-coded crisis-resource fallback of `_get_default_context`
(lines 236–244), transcribed from the Python triple-quoted literal. -/
def crisisResourceBlock : String :=
  "\n            [Crisis Resource] If you are in immediate danger or having thoughts of self-harm:\n            - Call 988 (National Suicide Prevention Lifeline) - available 24/7, free and confidential\n            - Text HOME to 741741 (Crisis Text Line)\n            - Call 911 or go to your nearest emergency room\n            - Contact campus security immediately\n\n            You are not alone, and help is available. These feelings can be temporary, and professional help can make a difference.\n            "

/-- The hard-coded generic service-directory fallback of
`_get_default_context` (lines 246–251). -/
def generalResourceBlock : String :=
  "\n        [General Resource] Christ University provides comprehensive mental health support services.\n        All counseling services are free and confidential for students.\n        Contact your assigned counselor or visit the counseling office for support.\n        Remember: Seeking help is a sign of strength, not weakness.\n        "

/-- Model of `MentalHealthRAG._get_default_context` (lines 231–251). -/
def get_default_context (query : String) : String :=
  if containsAnyKeyword crisisKeywordsDefault query then crisisResourceBlock
  else generalResourceBlock

/-- The `source_info` header built for one result (lines 207–209): bracketed
title-cased type (default `info`, underscores to spaces) and, when a truthy
`source` is present, a parenthesized source suffix. -/
def sourceInfo (md : Meta) : String :=
  let base := "[" ++ pyTitle (pyReplaceChar '_' ' ' (metaGetD md "type" "info")) ++ "]"
  match metaGet md "source" with
  | some src => if src = "" then base else base ++ " (" ++ src ++ ")"
  | none => base

/-- The `formatted_text` block for one result (line 211). -/
def formatBlock (r : SearchResult) : String :=
  sourceInfo r.metadata ++ "\n" ++ pyStrip r.text

/-- The crisis-priority predicate of `retrieve_knowledge` (lines 194–195):
metadata `priority == "high"`, or the query contains a crisis keyword (in
which case every result satisfies the predicate). -/
def isCrisisResult (query : String) (r : SearchResult) : Bool :=
  (metaGet r.metadata "priority" == some "high") ||
    containsAnyKeyword crisisKeywordsRetrieve query

/-- The greedy packing loop of `retrieve_knowledge` (lines 199–223), returning
the `context_parts` list: stop once the budget is reached, append a full block
while it fits, otherwise attempt one final truncated fragment (kept only when
the remaining budget minus the header and a 10-character reserve exceeds the
100-character minimum viable size) and stop. -/
def packLoop (context_length : Int) : Int → List SearchResult → List String
  | _, [] => []
  | cur, r :: rest =>
    if context_length ≤ cur then []
    else
      let si := sourceInfo r.metadata
      let ft := formatBlock r
      if cur + (ft.length : Int) ≤ context_length then
        ft :: packLoop context_length (cur + (ft.length : Int)) rest
      else
        let remaining := context_length - cur - (si.length : Int) - 10
        if 100 < remaining then
          [si ++ "\n" ++ pyTake (pyStrip r.text) remaining.toNat ++ "..."]
        else []

/-- The non-empty-results branch of `retrieve_knowledge` (lines 189–225):
partition into crisis-priority and other results (the latter via Python's
`r not in crisis_results` membership test), pack crisis first, and join the
packed blocks with the visible separator. -/
def packResults (query : String) (context_length : Int)
    (results : List SearchResult) : String :=
  let crisis := results.filter (isCrisisResult query)
  let other := results.filter (fun r => !(crisis.contains r))
  pyJoin "\n\n---\n\n" (packLoop context_length 0 (crisis ++ other))

/-- The state of a `MentalHealthRAG` instance. -/
structure RAGState where
  store : EmbeddingStore
  knowledgeLoaded : Bool
deriving DecidableEq

/-- Model of `MentalHealthRAG._load_knowledge_base` (lines 20–164). `docs` is the static
document list (plus counselor documents when the directory file exists);
`loadFails` models an exception raised while assembling it (e.g. a malformed
counselors file), which the method's own `except` catches before any document
was added, leaving the store untouched and the loaded flag `False`. -/
def load_knowledge_base (embed : String → Vec) (split : String → List String)
    (docs : List Document) (loadFails : Bool) (st : RAGState) : RAGState :=
  if loadFails then { st with knowledgeLoaded := false }
  else { store := add_documents embed split st.store docs, knowledgeLoaded := true }

/-- Model of `MentalHealthRAG.__init__` (lines 14–18): build the embedding model (which
runs `_load_index` on the persist path) and then load the knowledge base. -/
def rag_init (embed : String → Vec) (split : String → List String)
    (docs : List Document) (outcome : LoadOutcome) (loadFails : Bool) : RAGState :=
  load_knowledge_base embed split docs loadFails ⟨load_index emptyStore outcome, false⟩

/-- Model of `MentalHealthRAG.add_custom_knowledge` (lines 253–263): substitute the
default metadata when none is given, then `add_text`. -/
def add_custom_knowledge (embed : String → Vec) (st : EmbeddingStore)
    (content : String) (metadata : Option Meta) : EmbeddingStore :=
  add_text embed st content
    (some (metadata.getD [("type", "custom"), ("source", "user_added")]))

/-- Model of `MentalHealthRAG.retrieve_knowledge` (lines 166–229). Fault parameters
model exceptions at the three places the source can raise: `loadFails` inside
the lazily triggered `_load_knowledge_base` (caught there), `searchFails`
inside `EmbeddingModel.search` (caught there, yielding an empty result list),
and `packFails` an unexpected exception during prioritization/packing, caught
by the method's own top-level handler (lines 227–229), which returns the
default context. Returns the context string and the post-call state. -/
def retrieve_knowledge (embed : String → Vec) (split : String → List String)
    (docs : List Document) (loadFails searchFails packFails : Bool)
    (st : RAGState) (query : String) (max_results : Nat)
    (context_length : Int) : String × RAGState :=
  let st1 := if st.knowledgeLoaded then st
             else load_knowledge_base embed split docs loadFails st
  let results := if searchFails then []
                 else search embed st1.store query max_results (1 / 5)
  if results.isEmpty then (get_default_context query, st1)
  else if packFails then (get_default_context query, st1)
  else (packResults query context_length results, st1)

/-! ### Spec-side predicates used by the claim statements -/

/-- The lock-step invariant of the vector store. -/
def lockStep (st : EmbeddingStore) : Prop :=
  st.texts.length = st.metadata.length ∧ st.metadata.length = st.index.length

/-- A store operation whose snapshot (if it loads one) has equal-length
components — for example any snapshot produced by `save_index`. -/
def goodLoad : StoreOp → Prop
  | .load (.ok snap) => snap.texts.length = snap.metadata.length ∧
      snap.metadata.length = snap.index.length
  | _ => True

/-- State extension: every previously stored entry is still present,
unchanged and in place, in all three parallel structures. -/
def storeExtends (st st' : EmbeddingStore) : Prop :=
  ∃ t m v, st'.texts = st.texts ++ t ∧ st'.metadata = st.metadata ++ m ∧
    st'.index = st.index ++ v

/-- The operations that only append: `add_text` and `add_documents`. -/
def isAppendOp : StoreOp → Prop
  | .addText _ _ => True
  | .addDocuments _ => True
  | _ => False

/-! ### Helper lemmas: stable insertion sort -/

theorem pyInsert_length (le : α → α → Bool) (a : α) (l : List α) :
    (pyInsert le a l).length = l.length + 1 := by
  induction l with
  | nil => rfl
  | cons b bs ih => simp only [pyInsert]; split <;> simp [ih]

theorem pySort_length (le : α → α → Bool) (l : List α) :
    (pySort le l).length = l.length := by
  induction l with
  | nil => rfl
  | cons a as ih => simp [pySort, pyInsert_length, ih]

theorem mem_pyInsert (le : α → α → Bool) (a b : α) (l : List α) :
    b ∈ pyInsert le a l ↔ b = a ∨ b ∈ l := by
  induction l with
  | nil => simp [pyInsert]
  | cons c cs ih =>
    simp only [pyInsert]
    split
    · simp [List.mem_cons]
    · simp only [List.mem_cons, ih]
      tauto

theorem mem_pySort (le : α → α → Bool) (a : α) (l : List α) :
    a ∈ pySort le l ↔ a ∈ l := by
  induction l with
  | nil => simp [pySort]
  | cons b bs ih => simp [pySort, mem_pyInsert, ih]

theorem pairwise_pyInsert (le : α → α → Bool)
    (htot : ∀ a b, le a b = true ∨ le b a = true)
    (htrans : ∀ a b c, le a b = true → le b c = true → le a c = true)
    (a : α) (l : List α) (h : l.Pairwise (fun x y => le x y = true)) :
    (pyInsert le a l).Pairwise (fun x y => le x y = true) := by
  induction l with
  | nil => simp [pyInsert]
  | cons b bs ih =>
    simp only [pyInsert]
    split
    · rename_i hab
      refine List.Pairwise.cons ?_ h
      intro y hy
      rcases List.mem_cons.mp hy with rfl | hy2
      · exact hab
      · exact htrans a b y hab (List.rel_of_pairwise_cons h hy2)
    · rename_i hab
      have hba : le b a = true := by
        rcases htot a b with h1 | h1
        · exact absurd h1 hab
        · exact h1
      refine List.Pairwise.cons ?_ (ih h.of_cons)
      intro y hy
      rcases (mem_pyInsert le a y bs).mp hy with rfl | hy2
      · exact hba
      · exact List.rel_of_pairwise_cons h hy2

theorem pairwise_pySort (le : α → α → Bool)
    (htot : ∀ a b, le a b = true ∨ le b a = true)
    (htrans : ∀ a b c, le a b = true → le b c = true → le a c = true)
    (l : List α) : (pySort le l).Pairwise (fun x y => le x y = true) := by
  induction l with
  | nil => simp [pySort]
  | cons a as ih => exact pairwise_pyInsert le htot htrans a (pySort le as) ih

theorem pySort_eq_self (le : α → α → Bool) (l : List α)
    (h : l.Pairwise (fun x y => le x y = true)) : pySort le l = l := by
  induction l with
  | nil => rfl
  | cons a as ih =>
    have has : pySort le as = as := ih h.of_cons
    simp only [pySort, has]
    cases as with
    | nil => rfl
    | cons b bs =>
      simp only [pyInsert]
      rw [if_pos (List.rel_of_pairwise_cons h (List.mem_cons_self b bs))]

/-! ### Helper lemmas: pairwise transfer through filterMap, fold invariants -/

theorem pairwise_filterMap_of {S : β → β → Prop} {R : α → α → Prop}
    (f : β → Option α) (l : List β) (h : l.Pairwise S)
    (hf : ∀ a b, S a b → ∀ x, f a = some x → ∀ y, f b = some y → R x y) :
    (l.filterMap f).Pairwise R := by
  induction l with
  | nil => simp
  | cons a as ih =>
    rw [List.filterMap_cons]
    cases hfa : f a with
    | none => exact ih h.of_cons
    | some x =>
      refine List.Pairwise.cons ?_ (ih h.of_cons)
      intro y hy
      obtain ⟨b, hb, hfb⟩ := List.mem_filterMap.mp hy
      exact hf a b (List.rel_of_pairwise_cons h hb) x hfa y hfb

theorem foldl_preserve {P : γ → Prop} (f : γ → β → γ)
    (hf : ∀ c b, P c → P (f c b)) : ∀ (l : List β) (c : γ), P c → P (l.foldl f c)
  | [], _, hc => hc
  | b :: bs, c, hc => foldl_preserve f hf bs (f c b) (hf c b hc)

/-! ### Helper lemmas: Python join -/

theorem pyJoin_go_length (sep : String) :
    ∀ (as : List String) (acc : String),
      (as.foldl (fun acc x => acc ++ sep ++ x) acc).length
        = acc.length + ((as.map String.length).sum + sep.length * as.length) := by
  intro as
  induction as with
  | nil => intro acc; simp
  | cons a tl ih =>
    intro acc
    rw [List.foldl_cons, ih]
    simp [String.length_append]
    ring

theorem pyJoin_length (sep : String) (parts : List String) :
    (pyJoin sep parts).length
      = (parts.map String.length).sum + sep.length * (parts.length - 1) := by
  cases parts with
  | nil => simp [pyJoin]
  | cons a as => rw [pyJoin, pyJoin_go_length]; simp; ring

theorem pyJoin_go_head (sep : String) :
    ∀ (as : List String) (acc : String),
      ∃ t, as.foldl (fun acc x => acc ++ sep ++ x) acc = acc ++ t := by
  intro as
  induction as with
  | nil =>
    intro acc
    exact ⟨"", by simp⟩
  | cons a tl ih =>
    intro acc
    obtain ⟨t, ht⟩ := ih (acc ++ sep ++ a)
    refine ⟨sep ++ a ++ t, ?_⟩
    rw [List.foldl_cons, ht]
    simp [String.append_assoc]

theorem pyJoin_head (sep a : String) (as : List String) :
    ∃ t, pyJoin sep (a :: as) = a ++ t := by
  rw [pyJoin]
  exact pyJoin_go_head sep as a

/-! ### Helper lemmas: membership tests with Python value equality -/

theorem filter_not_contains_eq [BEq α] [LawfulBEq α] (l : List α) (p : α → Bool) :
    l.filter (fun a => !((l.filter p).contains a)) = l.filter (fun a => !(p a)) := by
  refine List.filter_congr ?_
  intro a ha
  have hmem : (l.filter p).contains a = true ↔ a ∈ l.filter p := by
    simp [List.contains]
  by_cases hp : p a = true
  · have : (l.filter p).contains a = true := hmem.mpr (List.mem_filter.mpr ⟨ha, hp⟩)
    rw [this, hp]
  · have hb : p a = false := by simpa using hp
    have : (l.filter p).contains a = false := by
      by_contra hc
      have := hmem.mp (by simpa using Bool.of_not_eq_false hc)
      exact hp (List.mem_filter.mp this).2
    rw [this, hb]

/-! ### Helper lemmas: the search pipeline -/

theorem candidateAt_some {st : EmbeddingStore} {thr : ℚ} {di : ℚ × Nat}
    {r : SearchResult} (h : candidateAt st thr di = some r) :
    r.distance = di.1 ∧ r.similarity = similarityOf di.1 ∧ thr ≤ r.similarity ∧
      di.2 < st.texts.length ∧ r.text = st.texts.getD di.2 "" ∧
      r.metadata = st.metadata.getD di.2 [] := by
  by_cases h1 : di.2 < st.texts.length
  · by_cases h2 : thr ≤ similarityOf di.1
    · rw [candidateAt, if_pos h1, if_pos h2, Option.some_inj] at h
      subst h
      exact ⟨rfl, rfl, h2, h1, rfl, rfl⟩
    · rw [candidateAt, if_pos h1, if_neg h2] at h
      cases h
  · rw [candidateAt, if_neg h1] at h
    cases h

theorem similarityOf_antitone {d d' : ℚ} (h : d ≤ d') :
    similarityOf d' ≤ similarityOf d := by
  unfold similarityOf
  exact max_le_max le_rfl (by linarith)

theorem faissSearch_pairwise (index : List Vec) (q : Vec) (n : Nat) :
    (faissSearch index q n).Pairwise (fun a b => a.1 ≤ b.1) := by
  have htot : ∀ a b : ℚ × Nat,
      decide (a.1 < b.1 ∨ (a.1 = b.1 ∧ a.2 ≤ b.2)) = true ∨
      decide (b.1 < a.1 ∨ (b.1 = a.1 ∧ b.2 ≤ a.2)) = true := by
    intro a b
    simp only [decide_eq_true_eq]
    rcases lt_trichotomy a.1 b.1 with h | h | h
    · exact Or.inl (Or.inl h)
    · rcases Nat.le_total a.2 b.2 with h2 | h2
      · exact Or.inl (Or.inr ⟨h, h2⟩)
      · exact Or.inr (Or.inr ⟨h.symm, h2⟩)
    · exact Or.inr (Or.inl h)
  have htrans : ∀ a b c : ℚ × Nat,
      decide (a.1 < b.1 ∨ (a.1 = b.1 ∧ a.2 ≤ b.2)) = true →
      decide (b.1 < c.1 ∨ (b.1 = c.1 ∧ b.2 ≤ c.2)) = true →
      decide (a.1 < c.1 ∨ (a.1 = c.1 ∧ a.2 ≤ c.2)) = true := by
    intro a b c hab hbc
    simp only [decide_eq_true_eq] at hab hbc ⊢
    rcases hab with h1 | ⟨h1, h1'⟩ <;> rcases hbc with h2 | ⟨h2, h2'⟩
    · exact Or.inl (h1.trans h2)
    · exact Or.inl (h2 ▸ h1)
    · exact Or.inl (h1 ▸ h2)
    · exact Or.inr ⟨h1.trans h2, h1'.trans h2'⟩
  have hs := pairwise_pySort _ htot htrans (index.enum.map (fun p => (l2sq q p.2, p.1)))
  rw [faissSearch]
  refine (hs.sublist (List.take_sublist n _)).imp ?_
  intro a b hab
  simp only [decide_eq_true_eq] at hab
  rcases hab with h | ⟨h, _⟩
  · exact le_of_lt h
  · exact le_of_eq h

theorem faissSearch_length_le (index : List Vec) (q : Vec) (n : Nat) :
    (faissSearch index q n).length ≤ n := by
  rw [faissSearch]
  exact (List.length_take _ _).le.trans (min_le_left _ _)

theorem searchCandidates_pairwise (st : EmbeddingStore) (vec : Vec) (k : Nat)
    (thr : ℚ) :
    (searchCandidates st vec k thr).Pairwise
      (fun a b => b.similarity ≤ a.similarity ∧ a.distance ≤ b.distance) := by
  rw [searchCandidates]
  refine pairwise_filterMap_of _ _ (faissSearch_pairwise _ _ _) ?_
  intro a b hab x hx y hy
  obtain ⟨hxd, hxs, -, -, -, -⟩ := candidateAt_some hx
  obtain ⟨hyd, hys, -, -, -, -⟩ := candidateAt_some hy
  refine ⟨?_, ?_⟩
  · rw [hxs, hys]
    exact similarityOf_antitone hab
  · rw [hxd, hyd]
    exact hab

theorem searchCandidates_pairwise_le (st : EmbeddingStore) (vec : Vec) (k : Nat)
    (thr : ℚ) :
    (searchCandidates st vec k thr).Pairwise
      (fun a b => decide (b.similarity ≤ a.similarity) = true) :=
  (searchCandidates_pairwise st vec k thr).imp (fun h => by simpa using h.1)

theorem search_eq_cases (embed : String → Vec) (st : EmbeddingStore) (q : String)
    (k : Nat) (thr : ℚ) :
    search embed st q k thr = [] ∨
    search embed st q k thr = searchCandidates st (embed (pyStrip q)) k thr := by
  unfold search
  split
  · exact Or.inl rfl
  · split
    · exact Or.inl rfl
    · exact Or.inr (pySort_eq_self _ _ (searchCandidates_pairwise_le _ _ _ _))

theorem search_mem_props (embed : String → Vec) (st : EmbeddingStore) (q : String)
    (k : Nat) (thr : ℚ) :
    ∀ r ∈ search embed st q k thr,
      r.similarity = similarityOf r.distance ∧ thr ≤ r.similarity := by
  intro r hr
  rcases search_eq_cases embed st q k thr with h | h
  · rw [h] at hr
    cases hr
  · rw [h, searchCandidates] at hr
    obtain ⟨di, hdi, hsome⟩ := List.mem_filterMap.mp hr
    obtain ⟨hd, hs, hthr, -, -, -⟩ := candidateAt_some hsome
    exact ⟨by rw [hs, hd], hthr⟩

theorem search_length_le (embed : String → Vec) (st : EmbeddingStore) (q : String)
    (k : Nat) (thr : ℚ) : (search embed st q k thr).length ≤ k := by
  rcases search_eq_cases embed st q k thr with h | h
  · simp [h]
  · rw [h, searchCandidates]
    exact le_trans (List.length_filterMap_le _ _)
      (le_trans (faissSearch_length_le _ _ _) (min_le_left _ _))

theorem search_pairwise (embed : String → Vec) (st : EmbeddingStore) (q : String)
    (k : Nat) (thr : ℚ) :
    (search embed st q k thr).Pairwise
      (fun a b => b.similarity ≤ a.similarity ∧
        (a.similarity = b.similarity → a.distance ≤ b.distance)) := by
  rcases search_eq_cases embed st q k thr with h | h
  · simp [h]
  · rw [h]
    exact (searchCandidates_pairwise st _ k thr).imp (fun hab => ⟨hab.1, fun _ => hab.2⟩)

/-! ### Claim C1 — error policy of retrieve_knowledge -/

/-- Claim C1, counterexample. An exception raised during lazy knowledge-base
loading (`loadFails = true`, loaded flag `false`) is caught inside
`_load_knowledge_base` itself, not by `retrieve_knowledge`'s top-level
handler: retrieval proceeds over the pre-existing store and returns a packed
context block, not the default-context fallback the claim requires for any
exception during steps 1–5. -/
theorem retrieve_knowledge_load_exception_cex :
    (retrieve_knowledge (fun _ => [1]) (fun s => [s]) [] true false false
        ⟨⟨[[1]], ["hello"], [[]]⟩, false⟩ "hi" 3 1500).1 = "[Info]\nhello" ∧
    "[Info]\nhello" ≠ get_default_context "hi" := by
  constructor
  · with_unfolding_all rfl
  · with_unfolding_all decide

/-- Claim C1 (amended): `retrieve_knowledge` always returns a string. An
exception inside `EmbeddingModel.search` (caught there, empty result list) and
an exception during prioritization/packing (caught by `retrieve_knowledge`'s
top-level handler) both yield exactly the default-context fallback of the
no-results case for that query. An exception during lazy loading, however, is
caught inside the loader: the store is left unchanged and retrieval proceeds
normally over it, producing the same string as a retrieval on the already
loaded store — not necessarily the fallback. -/
theorem retrieve_knowledge_error_policy (embed : String → Vec)
    (split : String → List String) (docs : List Document) (st : RAGState)
    (s : EmbeddingStore) (q : String) (mr : Nat) (L : Int)
    (lf sf pf : Bool) :
    ((retrieve_knowledge embed split docs lf true pf st q mr L).1
      = get_default_context q) ∧
    ((retrieve_knowledge embed split docs lf sf true st q mr L).1
      = get_default_context q) ∧
    ((retrieve_knowledge embed split docs true sf pf ⟨s, false⟩ q mr L).1
      = (retrieve_knowledge embed split docs false sf pf ⟨s, true⟩ q mr L).1) := by
  refine ⟨rfl, ?_, ?_⟩
  · simp [retrieve_knowledge, apply_ite Prod.fst]
  · simp [retrieve_knowledge, load_knowledge_base, apply_ite Prod.fst]

/-! ### Claim C2 — the search contract -/

/-- Claim C2, counterexample. With `scoreThreshold = 0` the clamp
`max(0, 1 - d/4)` maps both distance 4 and distance 9 to similarity 0: the two
results tie in similarity, yet `search` returns them in distance order
(store index 1 before store index 0), not in original index order as the
claim states. -/
theorem search_tie_order_cex :
    search (fun _ => [1]) ⟨[[4], [3]], ["a", "b"], [[], []]⟩ "q" 2 0 =
      [⟨"b", [], 0, 4⟩, ⟨"a", [], 0, 9⟩] ∧
    (⟨"b", [], 0, 4⟩ : SearchResult).similarity
      = (⟨"a", [], 0, 9⟩ : SearchResult).similarity ∧
    (⟨[[4], [3]], ["a", "b"], [[], []]⟩ : EmbeddingStore).texts = ["a", "b"] := by
  refine ⟨?_, rfl, rfl⟩
  with_unfolding_all rfl

/-- Claim C2 (amended): for every query, `k`, `scoreThreshold` and store state,
each result returned by `search` carries similarity `max(0, 1 - distance/4)`;
every returned result has similarity at least `scoreThreshold`, with the
comparison inclusive (the final conjunct returns any in-bounds scanned pair
whose similarity reaches the threshold — in particular one equal to it
exactly); the result list is sorted in non-increasing similarity, with results
of equal similarity kept in the stable pre-sort order of the distance-ascending
scan (non-decreasing distance; this coincides with original index order exactly
when the tied results share one distance); and at most `k` results are
returned. -/
theorem search_spec (embed : String → Vec) (st : EmbeddingStore) (q : String)
    (k : Nat) (thr : ℚ) :
    (∀ r ∈ search embed st q k thr, r.similarity = max 0 (1 - r.distance / 4)) ∧
    (∀ r ∈ search embed st q k thr, thr ≤ r.similarity) ∧
    (search embed st q k thr).Pairwise
      (fun a b => b.similarity ≤ a.similarity ∧
        (a.similarity = b.similarity → a.distance ≤ b.distance)) ∧
    (search embed st q k thr).length ≤ k ∧
    (∀ d i, pyStrip q ≠ "" → st.texts.length ≠ 0 →
      isNonZero (embed (pyStrip q)) = true →
      (d, i) ∈ faissSearch st.index (embed (pyStrip q)) (min k st.texts.length) →
      i < st.texts.length → thr ≤ max 0 (1 - d / 4) →
      (⟨st.texts.getD i "", st.metadata.getD i [], max 0 (1 - d / 4), d⟩ : SearchResult)
        ∈ search embed st q k thr) := by
  refine ⟨?_, ?_, search_pairwise _ _ _ _ _, search_length_le _ _ _ _ _, ?_⟩
  · intro r hr
    exact (search_mem_props embed st q k thr r hr).1
  · intro r hr
    exact (search_mem_props embed st q k thr r hr).2
  · intro d i h1 h2 h3 hdi hib hthr
    have hsearch : search embed st q k thr
        = searchCandidates st (embed (pyStrip q)) k thr := by
      rw [search, if_neg (not_or.mpr ⟨h1, h2⟩), h3]
      exact pySort_eq_self _ _ (searchCandidates_pairwise_le _ _ _ _)
    rw [hsearch, searchCandidates]
    refine List.mem_filterMap.mpr ⟨(d, i), hdi, ?_⟩
    show candidateAt st thr (d, i) = _
    rw [candidateAt, if_pos hib,
      if_pos (show thr ≤ similarityOf (d, i).1 from hthr)]
    rfl

/-- Witness for `search_spec`: a one-chunk store engineered so the chunk's
distance is 16/5, hence its similarity is exactly the threshold 1/5; the
boundary result is included in the output (inclusive comparison). -/
theorem search_spec_witness :
    (⟨"edge", [], max 0 (1 - (16 / 5 : ℚ) / 4), 16 / 5⟩ : SearchResult)
      ∈ search (fun _ => [1, 1]) ⟨[[13 / 5, 9 / 5]], ["edge"], [[]]⟩ "q" 1 (1 / 5) := by
  have h := (search_spec (fun _ => [1, 1])
    ⟨[[13 / 5, 9 / 5]], ["edge"], [[]]⟩ "q" 1 (1 / 5)).2.2.2.2
  have hm : ((16 / 5 : ℚ), 0) ∈ faissSearch [[13 / 5, 9 / 5]]
      ((fun _ => ([1, 1] : Vec)) (pyStrip "q")) (min 1 (["edge"].length)) := by
    have heq : faissSearch [[13 / 5, 9 / 5]]
        ((fun _ => ([1, 1] : Vec)) (pyStrip "q")) (min 1 (["edge"].length))
        = [((16 / 5 : ℚ), 0)] := by
      with_unfolding_all rfl
    rw [heq]
    exact List.mem_singleton.mpr rfl
  exact h (16 / 5) 0 (by decide) (by decide) (by with_unfolding_all rfl) hm
    (by decide) (by with_unfolding_all decide)

/-! ### Claim C3 — crisis prioritization -/

/-- Claim C3 (confirmed): when search returns results, `retrieve_knowledge`
packs `packResults`, which partitions the list into crisis-priority results
(metadata `priority == "high"`, or every result when the lowercased query
contains a crisis keyword) and the rest — the source's `r not in
crisis_results` membership test is exactly the predicate's negation — each
partition an order-preserving sublist, and packs all crisis blocks first; in
particular with a normal higher-similarity result before a `priority:"high"`
lower-similarity result, the output starts with the high-priority block. -/
theorem retrieve_crisis_prioritization (q : String) (L : Int)
    (results : List SearchResult) :
    (results.filter (fun r => !((results.filter (isCrisisResult q)).contains r))
        = results.filter (fun r => !(isCrisisResult q r))) ∧
    List.Sublist (results.filter (isCrisisResult q)) results ∧
    List.Sublist (results.filter (fun r => !(isCrisisResult q r))) results ∧
    (∀ r ∈ results.filter (isCrisisResult q), isCrisisResult q r = true) ∧
    (∀ r ∈ results.filter (fun r => !(isCrisisResult q r)),
      isCrisisResult q r = false) ∧
    (containsAnyKeyword crisisKeywordsRetrieve q = true →
      results.filter (isCrisisResult q) = results) ∧
    (∀ embed split docs st mr,
      results = search embed (if st.knowledgeLoaded then st
        else load_knowledge_base embed split docs false st).store q mr (1 / 5) →
      results ≠ [] →
      (retrieve_knowledge embed split docs false false false st q mr L).1
        = packResults q L results) ∧
    (∀ r1 r2 : SearchResult, results = [r1, r2] →
      isCrisisResult q r1 = false → isCrisisResult q r2 = true →
      r2.similarity ≤ r1.similarity → 0 < L →
      ((formatBlock r2).length : Int) ≤ L →
      ∃ t, packResults q L results = formatBlock r2 ++ t) := by
  refine ⟨filter_not_contains_eq results (isCrisisResult q),
    List.filter_sublist _, List.filter_sublist _, ?_, ?_, ?_, ?_, ?_⟩
  · intro r hr
    exact (List.mem_filter.mp hr).2
  · intro r hr
    simpa using (List.mem_filter.mp hr).2
  · intro hkw
    refine List.filter_eq_self.mpr ?_
    intro r _
    rw [isCrisisResult, hkw, Bool.or_true]
  · intro embed split docs st mr hres hne
    rw [retrieve_knowledge]
    simp only [← hres]
    rw [if_neg (by simpa using hne)]
    rfl
  · intro r1 r2 hres h1 h2 _ hL hlen
    subst hres
    rw [packResults, filter_not_contains_eq]
    rw [show ([r1, r2].filter (isCrisisResult q)) = [r2] by
      simp [List.filter, h1, h2]]
    rw [show ([r1, r2].filter (fun r => !(isCrisisResult q r))) = [r1] by
      simp [List.filter, h1, h2]]
    have hloop : packLoop L 0 ([r2] ++ [r1])
        = formatBlock r2 :: packLoop L (0 + ((formatBlock r2).length : Int)) [r1] := by
      rw [show ([r2] ++ [r1]) = r2 :: [r1] from rfl, packLoop]
      rw [if_neg (by omega), if_pos (by omega)]
    rw [hloop]
    exact pyJoin_head _ _ _

/-- Witness for `retrieve_crisis_prioritization`: a normal result with
similarity 1 is ranked above a `priority:"high"` result with similarity 3/4,
yet the packed context starts with the high-priority block. -/
theorem retrieve_crisis_prioritization_witness :
    ∃ t, packResults "hello" 1500
        [⟨"normal text", [], 1, 0⟩, ⟨"crisis text", [("priority", "high")], 3 / 4, 1⟩]
      = formatBlock ⟨"crisis text", [("priority", "high")], 3 / 4, 1⟩ ++ t :=
  (retrieve_crisis_prioritization "hello" 1500 _).2.2.2.2.2.2.2
    ⟨"normal text", [], 1, 0⟩ ⟨"crisis text", [("priority", "high")], 3 / 4, 1⟩
    rfl (by rfl) (by rfl) (by with_unfolding_all decide) (by decide)
    (by with_unfolding_all decide)

/-! ### Claim C4 — the length budget of context packing -/

theorem length_mk (l : List Char) : (String.mk l).length = l.length := rfl

theorem pyTake_length_le (s : String) (n : Nat) : (pyTake s n).length ≤ n := by
  rw [pyTake, length_mk]
  exact (List.length_take n s.toList).le.trans (min_le_left _ _)

theorem packLoop_sum_le (L : Int) (rs : List SearchResult) :
    ∀ cur : Int, ((((packLoop L cur rs).map String.length).sum : Nat) : Int)
      ≤ max (L - cur) 0 := by
  induction rs with
  | nil =>
    intro cur
    simp [packLoop]
  | cons r rest ih =>
    intro cur
    simp only [packLoop]
    split
    · simp
    · rename_i hcur
      split
      · rename_i hfit
        have hrec := ih (cur + ((formatBlock r).length : Int))
        have hmax : max (L - (cur + ((formatBlock r).length : Int))) 0
            = L - cur - ((formatBlock r).length : Int) := by
          rw [max_eq_left (by omega)]
          ring
        rw [hmax] at hrec
        rw [List.map_cons, List.sum_cons]
        push_cast
        push_cast at hrec
        have hle : (L - cur) ≤ max (L - cur) 0 := le_max_left _ _
        linarith
      · split
        · rename_i htrunc
          rw [List.map_cons, List.map_nil, List.sum_cons, List.sum_nil]
          have h1 : (sourceInfo r.metadata ++ "\n"
              ++ pyTake (pyStrip r.text) (L - cur - ((sourceInfo r.metadata).length : Int) - 10).toNat
              ++ "...").length
              = (sourceInfo r.metadata).length + 1
                + (pyTake (pyStrip r.text) (L - cur - ((sourceInfo r.metadata).length : Int) - 10).toNat).length
                + 3 := by
            simp only [String.length_append]
            rfl
          have h2 := pyTake_length_le (pyStrip r.text)
            (L - cur - ((sourceInfo r.metadata).length : Int) - 10).toNat
          have h3 : ((L - cur - ((sourceInfo r.metadata).length : Int) - 10).toNat : Int)
              = L - cur - ((sourceInfo r.metadata).length : Int) - 10 := by
            omega
          have hle : (L - cur) ≤ max (L - cur) 0 := le_max_left _ _
          rw [h1]
          push_cast
          have h2' : ((pyTake (pyStrip r.text)
              (L - cur - ((sourceInfo r.metadata).length : Int) - 10).toNat).length : Int)
              ≤ L - cur - ((sourceInfo r.metadata).length : Int) - 10 := by
            omega
          linarith
        · simp

theorem packLoop_length_le (L : Int) (rs : List SearchResult) :
    ∀ cur : Int, (packLoop L cur rs).length ≤ rs.length := by
  induction rs with
  | nil =>
    intro cur
    simp [packLoop]
  | cons r rest ih =>
    intro cur
    simp only [packLoop]
    split
    · simp
    · split
      · simpa using Nat.succ_le_succ (ih _)
      · split
        · simp [Nat.succ_le_succ]
        · simp

theorem pyJoinSep_length_le (parts : List String) (L : Int) (n : Nat)
    (hsum : ((((parts.map String.length).sum : Nat)) : Int) ≤ max L 0)
    (hlen : parts.length ≤ n) (hn : 1 ≤ n) :
    ((pyJoin "\n\n---\n\n" parts).length : Int) ≤ max L 0 + 7 * ((n : Int) - 1) := by
  have h0 : (0 : Int) ≤ max L 0 := le_max_right _ _
  have hn' : (1 : Int) ≤ (n : Int) := by exact_mod_cast hn
  rw [pyJoin_length]
  cases parts with
  | nil =>
    simp only [List.map_nil, List.sum_nil, List.length_nil, Nat.zero_sub,
      Nat.mul_zero, Nat.add_zero, Nat.cast_zero]
    linarith
  | cons a as =>
    have hlen' : ((as.length : Int)) ≤ (n : Int) - 1 := by
      have : as.length + 1 ≤ n := by simpa using hlen
      omega
    have hcast : ((((a :: as).map String.length).sum
        + ("\n\n---\n\n").length * ((a :: as).length - 1) : Nat) : Int)
        = ((((a :: as).map String.length).sum : Nat) : Int) + 7 * (as.length : Int) := by
      have hsep : ("\n\n---\n\n").length = 7 := rfl
      have hl1 : (a :: as).length - 1 = as.length := by simp
      rw [hsep, hl1]
      push_cast
      ring
    rw [hcast]
    linarith

theorem packResults_length_le (q : String) (L : Int) (results : List SearchResult)
    (hne : results ≠ []) :
    ((packResults q L results).length : Int)
      ≤ max L 0 + 7 * ((results.length : Int) - 1) := by
  rw [packResults, filter_not_contains_eq]
  have hres1 : 1 ≤ results.length := by
    cases results with
    | nil => exact absurd rfl hne
    | cons a as => simp
  have hpartition : (results.filter (isCrisisResult q)
      ++ results.filter (fun r => !(isCrisisResult q r))).length = results.length := by
    rw [List.length_append]
    exact (List.length_eq_length_filter_add (isCrisisResult q)).symm
  have hnum : (packLoop L 0 (results.filter (isCrisisResult q)
      ++ results.filter (fun r => !(isCrisisResult q r)))).length ≤ results.length := by
    rw [← hpartition]
    exact packLoop_length_le L _ 0
  have hsum := packLoop_sum_le L (results.filter (isCrisisResult q)
      ++ results.filter (fun r => !(isCrisisResult q r))) 0
  rw [sub_zero] at hsum
  exact pyJoinSep_length_le _ L results.length hsum hnum hres1

set_option maxRecDepth 8000 in
/-- Claim C4, counterexample. The packing loop budgets only the block
characters, not the `"\n\n---\n\n"` separators the final join inserts: forty
8-character blocks exactly fill `contextLength = 320`, and the 39 separators
add 273 further characters, so the output has 593 characters — more than
`contextLength + 100`, the bound the claim states. -/
theorem retrieve_length_budget_cex :
    (retrieve_knowledge (fun _ => [1]) (fun s => [s]) [] false false false
        ⟨⟨List.replicate 40 [1], List.replicate 40 "a", List.replicate 40 []⟩, true⟩
        "q" 40 320).1.length = 593 ∧ 320 + 100 < 593 := by
  constructor
  · with_unfolding_all rfl
  · decide

/-- Claim C4 (amended): on the packing path (search returned a non-empty
result list, no fault), `retrieve_knowledge` returns the packed context, whose
block characters never exceed `max(contextLength, 0)` — the one truncated
fragment, when attempted, fits within the remaining budget rather than
overflowing it — and whose total length exceeds that only by the
`"\n\n---\n\n"` separators: at most `7 * (number of results - 1)` further
characters, with at most `maxResults` results. The separator characters are
not counted against the budget, so the output can exceed `contextLength` by
more than the 100-character fragment bound the original claim states. -/
theorem retrieve_length_budget (embed : String → Vec)
    (split : String → List String) (docs : List Document) (st : RAGState)
    (q : String) (mr : Nat) (L : Int) (results : List SearchResult)
    (hres : results = search embed (if st.knowledgeLoaded then st
      else load_knowledge_base embed split docs false st).store q mr (1 / 5))
    (hne : results ≠ []) :
    (retrieve_knowledge embed split docs false false false st q mr L).1
      = packResults q L results ∧
    ((packResults q L results).length : Int)
      ≤ max L 0 + 7 * ((results.length : Int) - 1) ∧
    results.length ≤ mr := by
  refine ⟨?_, packResults_length_le q L results hne, ?_⟩
  · rw [retrieve_knowledge]
    simp only [← hres]
    rw [if_neg (by simpa using hne)]
    rfl
  · rw [hres]
    exact search_length_le _ _ _ _ _

/-- Witness for `retrieve_length_budget`: a one-chunk store at distance 0. -/
theorem retrieve_length_budget_witness :
    (retrieve_knowledge (fun _ => [1]) (fun s => [s]) [] false false false
        ⟨⟨[[1]], ["hello"], [[]]⟩, true⟩ "hi" 3 1500).1
      = packResults "hi" 1500 [⟨"hello", [], 1, 0⟩] ∧
    ((packResults "hi" 1500 [⟨"hello", [], 1, 0⟩]).length : Int)
      ≤ max 1500 0 + 7 * ((([⟨"hello", [], 1, 0⟩] : List SearchResult).length : Int) - 1) ∧
    ([⟨"hello", [], 1, 0⟩] : List SearchResult).length ≤ 3 :=
  retrieve_length_budget (fun _ => [1]) (fun s => [s]) []
    ⟨⟨[[1]], ["hello"], [[]]⟩, true⟩ "hi" 3 1500 [⟨"hello", [], 1, 0⟩]
    (by with_unfolding_all rfl) (by simp)

/-! ### Claim C5 — default-context fallback selection -/

/-- Claim C5 (confirmed): whenever search yields no results,
`retrieve_knowledge` returns `_get_default_context(query)`, which is the fixed
hard-coded crisis-resource block exactly when the lowercased query contains
one of the seven crisis substrings, and otherwise the fixed hard-coded generic
service-directory block; both constants are non-empty and independent of the
store. -/
theorem retrieve_default_fallback (embed : String → Vec)
    (split : String → List String) (docs : List Document) (st : RAGState)
    (q : String) (mr : Nat) (L : Int)
    (h : search embed (if st.knowledgeLoaded then st
      else load_knowledge_base embed split docs false st).store q mr (1 / 5) = []) :
    (retrieve_knowledge embed split docs false false false st q mr L).1
      = get_default_context q ∧
    ((retrieve_knowledge embed split docs false false false st q mr L).1
        = crisisResourceBlock ↔
      ∃ kw ∈ crisisKeywordsDefault, strContains (pyLower q) kw = true) ∧
    ((retrieve_knowledge embed split docs false false false st q mr L).1
        = generalResourceBlock ↔
      ¬ ∃ kw ∈ crisisKeywordsDefault, strContains (pyLower q) kw = true) ∧
    crisisResourceBlock ≠ "" ∧ generalResourceBlock ≠ "" := by
  have hblocks : crisisResourceBlock ≠ generalResourceBlock := by
    with_unfolding_all decide
  have hret : (retrieve_knowledge embed split docs false false false st q mr L).1
      = get_default_context q := by
    rw [retrieve_knowledge]
    simp only [h]
    rfl
  have hany : containsAnyKeyword crisisKeywordsDefault q = true ↔
      ∃ kw ∈ crisisKeywordsDefault, strContains (pyLower q) kw = true := by
    rw [containsAnyKeyword]
    exact List.any_eq_true
  refine ⟨hret, ?_, ?_, by with_unfolding_all decide, by with_unfolding_all decide⟩
  · rw [hret, get_default_context]
    constructor
    · intro heq
      by_cases hkw : containsAnyKeyword crisisKeywordsDefault q = true
      · exact hany.mp hkw
      · rw [if_neg hkw] at heq
        exact absurd heq.symm hblocks
    · intro hex
      rw [if_pos (hany.mpr hex)]
  · rw [hret, get_default_context]
    constructor
    · intro heq
      intro hex
      rw [if_pos (hany.mpr hex)] at heq
      exact hblocks heq
    · intro hnex
      rw [if_neg (fun hkw => hnex (hany.mp hkw))]

/-- Witness for `retrieve_default_fallback`: an empty store (no results) and a
query containing "kill" selects the crisis-resource block. -/
theorem retrieve_default_fallback_witness :
    (retrieve_knowledge (fun _ => [1]) (fun s => [s]) [] false false false
        ⟨emptyStore, true⟩ "I want to kill myself" 3 1500).1
      = crisisResourceBlock :=
  (retrieve_default_fallback (fun _ => [1]) (fun s => [s]) [] ⟨emptyStore, true⟩
    "I want to kill myself" 3 1500 (by with_unfolding_all rfl)).2.1.mpr
    ⟨"kill", by decide, by rfl⟩

/-! ### Claim C6 — the lock-step invariant of the three parallel structures -/

theorem add_text_lockStep (embed : String → Vec) (st : EmbeddingStore)
    (t : String) (m : Option Meta) (h : lockStep st) :
    lockStep (add_text embed st t m) := by
  simp only [add_text]
  split
  · exact h
  · split
    · obtain ⟨h1, h2⟩ := h
      exact ⟨by simp [h1], by simp [h2]⟩
    · exact h

theorem add_documents_lockStep (embed : String → Vec)
    (split : String → List String) (st : EmbeddingStore) (docs : List Document)
    (h : lockStep st) : lockStep (add_documents embed split st docs) := by
  rw [add_documents]
  refine foldl_preserve _ ?_ docs st h
  intro acc doc hacc
  split
  · exact hacc
  · exact foldl_preserve _ (fun a ic ha => add_text_lockStep embed a ic.2 _ ha) _ acc hacc

/-- Claim C6 (amended): every sequence of store operations preserves
`len(texts) = len(metadata) = index size`, provided each load in the sequence
reads a snapshot whose three components have equal lengths (as any snapshot
written by `save_index` does); `add_text` (including empty and non-embeddable
texts), `add_documents` and `clear_index` preserve the invariant
unconditionally, but `_load_index` adopts whatever the snapshot holds, so a
malformed snapshot breaks the invariant. -/
theorem store_lock_step (embed : String → Vec) (split : String → List String)
    (st : EmbeddingStore) (ops : List StoreOp) (h0 : lockStep st)
    (hops : ∀ op ∈ ops, goodLoad op) :
    lockStep (runOps embed split st ops) := by
  induction ops generalizing st with
  | nil => exact h0
  | cons op rest ih =>
    rw [runOps, List.foldl_cons]
    refine ih _ ?_ (fun o ho => hops o (List.mem_cons_of_mem op ho))
    have hop : goodLoad op := hops op (List.mem_cons_self op rest)
    cases op with
    | addText t m => exact add_text_lockStep embed st t m h0
    | addDocuments ds => exact add_documents_lockStep embed split st ds h0
    | load oc =>
      cases oc with
      | missing => exact h0
      | ok snap => exact hop
      | corrupt => exact ⟨rfl, rfl⟩
    | clear => exact ⟨rfl, rfl⟩

/-- Claim C6, counterexample. `_load_index` performs no consistency check: a
snapshot holding one text but no metadata and no vectors (two stale or
hand-written files) loads successfully and leaves the three structures out of
lock-step. -/
theorem store_lock_step_cex :
    (runOps (fun _ => []) (fun _ => []) emptyStore
        [.load (.ok ⟨[], ["a"], []⟩)]).texts.length = 1 ∧
    (runOps (fun _ => []) (fun _ => []) emptyStore
        [.load (.ok ⟨[], ["a"], []⟩)]).metadata.length = 0 ∧
    (runOps (fun _ => []) (fun _ => []) emptyStore
        [.load (.ok ⟨[], ["a"], []⟩)]).index.length = 0 := by
  exact ⟨rfl, rfl, rfl⟩

/-- Witness for `store_lock_step`: adds (one of them skipped as whitespace),
a clear, a well-formed load and a missing load keep the three structures in
lock-step. -/
theorem store_lock_step_witness :
    lockStep (runOps (fun _ => [1]) (fun _ => ["c1", "c2"]) emptyStore
      [.addText "hello" none, .addText "   " none,
       .addDocuments [⟨"doc body", [("type", "educational")]⟩], .clear,
       .load (.ok ⟨[[2]], ["t"], [[]]⟩), .load .missing]) := by
  refine store_lock_step (fun _ => [1]) (fun _ => ["c1", "c2"]) emptyStore _
    ⟨rfl, rfl⟩ ?_
  intro op hop
  simp only [List.mem_cons, List.not_mem_nil, or_false] at hop
  rcases hop with rfl | rfl | rfl | rfl | rfl | rfl <;> first
    | exact trivial
    | exact ⟨rfl, rfl⟩

/-! ### Claim C7 — idempotence of knowledge-base loading -/

/-- Claim C7 evaluated at its failing input (the code bug). First run:
construct the RAG over a missing snapshot — the store holds one chunk
`"doc"` — and persist it with `save_index`. Second run: construct the RAG over
that persisted snapshot. `_load_index` restores the chunk and
`_load_knowledge_base` — guarded by a per-instance flag that is always false
during `__init__` — unconditionally adds the knowledge documents again, so the
chunk set doubles instead of staying the same. The lazy-load path inside
`retrieve_knowledge` is, by contrast, properly guarded: with the loaded flag
set, a retrieval leaves the state unchanged (shown on a concrete loaded
state). -/
theorem knowledge_load_duplication :
    (rag_init (fun _ => [1]) (fun s => [s]) [⟨"doc", []⟩] .missing false).store.texts
      = ["doc"] ∧
    (rag_init (fun _ => [1]) (fun s => [s]) [⟨"doc", []⟩]
        (.ok (save_index (rag_init (fun _ => [1]) (fun s => [s]) [⟨"doc", []⟩]
          .missing false).store)) false).store.texts
      = ["doc", "doc"] ∧
    (retrieve_knowledge (fun _ => [1]) (fun s => [s]) [⟨"doc", []⟩]
        false false false ⟨⟨[[1]], ["doc"], [[]]⟩, true⟩ "q" 3 1500).2
      = ⟨⟨[[1]], ["doc"], [[]]⟩, true⟩ := by
  refine ⟨by with_unfolding_all rfl, by with_unfolding_all rfl, ?_⟩
  with_unfolding_all rfl

/-! ### Claim C8 — no-op adds -/

/-- Claim C8 (confirmed): calling `add_text` with an empty string, a
whitespace-only string (both have empty `strip()`), or any text whose
embedding is the all-zero vector leaves the entire store state — texts,
metadata and index vectors — unchanged; in particular `add("")` and
`add("   ")` change nothing for any embedding function. -/
theorem add_text_noop (embed : String → Vec) (st : EmbeddingStore)
    (text : String) (md : Option Meta) :
    ((pyStrip text = "" ∨ isNonZero (embed (pyStrip text)) = false) →
      add_text embed st text md = st) ∧
    add_text embed st "" md = st ∧
    add_text embed st "   " md = st := by
  have hgen : ∀ t, (pyStrip t = "" ∨ isNonZero (embed (pyStrip t)) = false) →
      add_text embed st t md = st := by
    intro t ht
    simp only [add_text]
    rcases ht with h | h
    · rw [if_pos h]
    · split
      · rfl
      · rw [h]
        simp
  exact ⟨hgen text, hgen "" (Or.inl rfl), hgen "   " (Or.inl (by rfl))⟩

/-- Witness for `add_text_noop`: a zero-embedding text, the empty text and a
whitespace text all leave a concrete store untouched. -/
theorem add_text_noop_witness :
    add_text (fun _ => [0]) ⟨[[1]], ["x"], [[]]⟩ "hi" none = ⟨[[1]], ["x"], [[]]⟩ ∧
    add_text (fun _ => [0]) ⟨[[1]], ["x"], [[]]⟩ "" none = ⟨[[1]], ["x"], [[]]⟩ ∧
    add_text (fun _ => [0]) ⟨[[1]], ["x"], [[]]⟩ "   " none = ⟨[[1]], ["x"], [[]]⟩ := by
  have h := add_text_noop (fun _ => [0]) ⟨[[1]], ["x"], [[]]⟩ "hi" none
  exact ⟨h.1 (Or.inr (by with_unfolding_all rfl)), h.2.1, h.2.2⟩

/-! ### Claim C9 — append-only growth -/

theorem storeExtends_refl (st : EmbeddingStore) : storeExtends st st :=
  ⟨[], [], [], by simp, by simp, by simp⟩

theorem storeExtends_trans {a b c : EmbeddingStore}
    (h1 : storeExtends a b) (h2 : storeExtends b c) : storeExtends a c := by
  obtain ⟨t1, m1, v1, ht1, hm1, hv1⟩ := h1
  obtain ⟨t2, m2, v2, ht2, hm2, hv2⟩ := h2
  exact ⟨t1 ++ t2, m1 ++ m2, v1 ++ v2, by rw [ht2, ht1, List.append_assoc],
    by rw [hm2, hm1, List.append_assoc], by rw [hv2, hv1, List.append_assoc]⟩

theorem add_text_extends (embed : String → Vec) (st : EmbeddingStore)
    (t : String) (m : Option Meta) : storeExtends st (add_text embed st t m) := by
  simp only [add_text]
  split
  · exact storeExtends_refl st
  · split
    · exact ⟨[pyStrip t], [m.getD []], [embed (pyStrip t)], rfl, rfl, rfl⟩
    · exact storeExtends_refl st

theorem foldl_extends {f : EmbeddingStore → β → EmbeddingStore}
    (hf : ∀ s b, storeExtends s (f s b)) :
    ∀ (l : List β) (s : EmbeddingStore), storeExtends s (l.foldl f s)
  | [], s => storeExtends_refl s
  | b :: bs, s => storeExtends_trans (hf s b) (foldl_extends hf bs (f s b))

theorem add_documents_extends (embed : String → Vec)
    (split : String → List String) (st : EmbeddingStore) (docs : List Document) :
    storeExtends st (add_documents embed split st docs) := by
  rw [add_documents]
  refine foldl_extends ?_ docs st
  intro s doc
  split
  · exact storeExtends_refl s
  · exact foldl_extends
      (fun (s2 : EmbeddingStore) (ic : Nat × String) =>
        add_text_extends embed s2 ic.2 _) _ s

theorem runOps_extends (embed : String → Vec) (split : String → List String) :
    ∀ (ops : List StoreOp) (st : EmbeddingStore), (∀ op ∈ ops, isAppendOp op) →
      storeExtends st (runOps embed split st ops)
  | [], st, _ => storeExtends_refl st
  | op :: rest, st, h => by
    rw [runOps, List.foldl_cons]
    have hop : isAppendOp op := h op (List.mem_cons_self op rest)
    have hstep : storeExtends st (applyOp embed split st op) := by
      cases op with
      | addText t m => exact add_text_extends embed st t m
      | addDocuments ds => exact add_documents_extends embed split st ds
      | load oc => exact hop.elim
      | clear => exact hop.elim
    exact storeExtends_trans hstep (runOps_extends embed split rest _
      (fun o ho => h o (List.mem_cons_of_mem op ho)))

/-- Claim C9 (amended): over every sequence of `add_text` / `add_documents`
operations the previously stored texts, metadata and vectors remain present
and unchanged (the new state appends to each) and the entry count never
decreases. This append-only behaviour does not extend to the full operation
set: `clear_index` deletes every entry and `_load_index` replaces the state
(see the counterexample). -/
theorem store_append_only (embed : String → Vec) (split : String → List String)
    (st : EmbeddingStore) (ops : List StoreOp)
    (h : ∀ op ∈ ops, isAppendOp op) :
    (∃ t, (runOps embed split st ops).texts = st.texts ++ t) ∧
    (∃ m, (runOps embed split st ops).metadata = st.metadata ++ m) ∧
    (∃ v, (runOps embed split st ops).index = st.index ++ v) ∧
    st.texts.length ≤ (runOps embed split st ops).texts.length ∧
    st.index.length ≤ (runOps embed split st ops).index.length := by
  obtain ⟨t, m, v, ht, hm, hv⟩ := runOps_extends embed split ops st h
  exact ⟨⟨t, ht⟩, ⟨m, hm⟩, ⟨v, hv⟩, by rw [ht]; simp, by rw [hv]; simp⟩

/-- Claim C9, counterexample. `clear_index` is an operation available on the
store (embeddings.py lines 280–285) and it deletes every stored entry: after
`add("a")` the store holds the text `"a"`, and a subsequent `clear_index`
leaves it empty — the previously stored text is gone and the entry count
decreased from 1 to 0. -/
theorem store_append_only_cex :
    (runOps (fun _ => [1]) (fun _ => []) emptyStore [.addText "a" none]).texts
      = ["a"] ∧
    (runOps (fun _ => [1]) (fun _ => []) emptyStore
      [.addText "a" none, .clear]).texts = [] ∧
    (runOps (fun _ => [1]) (fun _ => []) emptyStore
        [.addText "a" none, .clear]).texts.length
      < (runOps (fun _ => [1]) (fun _ => [])
          emptyStore [.addText "a" none]).texts.length := by
  refine ⟨by with_unfolding_all rfl, by with_unfolding_all rfl, ?_⟩
  with_unfolding_all decide

/-- Witness for `store_append_only`: two append operations over a seeded
store. -/
theorem store_append_only_witness :
    (∃ t, (runOps (fun _ => [1]) (fun _ => ["c1", "c2"]) ⟨[[5]], ["seed"], [[]]⟩
      [.addText "b" none, .addDocuments [⟨"doc body", []⟩]]).texts
        = (⟨[[5]], ["seed"], [[]]⟩ : EmbeddingStore).texts ++ t) ∧
    (∃ m, (runOps (fun _ => [1]) (fun _ => ["c1", "c2"]) ⟨[[5]], ["seed"], [[]]⟩
      [.addText "b" none, .addDocuments [⟨"doc body", []⟩]]).metadata
        = (⟨[[5]], ["seed"], [[]]⟩ : EmbeddingStore).metadata ++ m) ∧
    (∃ v, (runOps (fun _ => [1]) (fun _ => ["c1", "c2"]) ⟨[[5]], ["seed"], [[]]⟩
      [.addText "b" none, .addDocuments [⟨"doc body", []⟩]]).index
        = (⟨[[5]], ["seed"], [[]]⟩ : EmbeddingStore).index ++ v) ∧
    (⟨[[5]], ["seed"], [[]]⟩ : EmbeddingStore).texts.length
      ≤ (runOps (fun _ => [1]) (fun _ => ["c1", "c2"]) ⟨[[5]], ["seed"], [[]]⟩
        [.addText "b" none, .addDocuments [⟨"doc body", []⟩]]).texts.length ∧
    (⟨[[5]], ["seed"], [[]]⟩ : EmbeddingStore).index.length
      ≤ (runOps (fun _ => [1]) (fun _ => ["c1", "c2"]) ⟨[[5]], ["seed"], [[]]⟩
        [.addText "b" none, .addDocuments [⟨"doc body", []⟩]]).index.length := by
  refine store_append_only (fun _ => [1]) (fun _ => ["c1", "c2"])
    ⟨[[5]], ["seed"], [[]]⟩ [.addText "b" none, .addDocuments [⟨"doc body", []⟩]] ?_
  intro op hop
  simp only [List.mem_cons, List.not_mem_nil, or_false] at hop
  rcases hop with rfl | rfl <;> exact trivial

/-! ### Claim C10 — default metadata of add_custom_knowledge -/

/-- Claim C10 (confirmed): `add_custom_knowledge` with the metadata argument
omitted (`None`) stores the text with `{'type': 'custom', 'source':
'user_added'}` — not with an empty metadata map — so the stored entry's
formatted context block carries the `[Custom]` type label and the
`(user_added)` source suffix. -/
theorem add_custom_knowledge_default_metadata (embed : String → Vec)
    (st : EmbeddingStore) (content : String)
    (h1 : pyStrip content ≠ "")
    (h2 : isNonZero (embed (pyStrip content)) = true) :
    (add_custom_knowledge embed st content none).texts
      = st.texts ++ [pyStrip content] ∧
    (add_custom_knowledge embed st content none).metadata
      = st.metadata ++ [[("type", "custom"), ("source", "user_added")]] ∧
    (add_custom_knowledge embed st content none).index
      = st.index ++ [embed (pyStrip content)] ∧
    sourceInfo [("type", "custom"), ("source", "user_added")]
      = "[Custom] (user_added)" ∧
    (∀ sim dist : ℚ, formatBlock
        ⟨content, [("type", "custom"), ("source", "user_added")], sim, dist⟩
      = "[Custom] (user_added)\n" ++ pyStrip content) := by
  have hadd : add_custom_knowledge embed st content none
      = { index := st.index ++ [embed (pyStrip content)]
          texts := st.texts ++ [pyStrip content]
          metadata := st.metadata
            ++ [[("type", "custom"), ("source", "user_added")]] } := by
    rw [add_custom_knowledge]
    simp only [add_text]
    rw [if_neg h1, if_pos h2]
    rfl
  refine ⟨by rw [hadd], by rw [hadd], by rw [hadd], by rfl, ?_⟩
  intro sim dist
  rfl

/-- Witness for `add_custom_knowledge_default_metadata`: a concrete store and
a custom text with surrounding whitespace. -/
theorem add_custom_knowledge_default_metadata_witness :
    (add_custom_knowledge (fun _ => [1]) emptyStore " campus tips " none).texts
      = [pyStrip " campus tips "] ∧
    (add_custom_knowledge (fun _ => [1]) emptyStore " campus tips " none).metadata
      = [[("type", "custom"), ("source", "user_added")]] ∧
    sourceInfo [("type", "custom"), ("source", "user_added")]
      = "[Custom] (user_added)" := by
  have h := add_custom_knowledge_default_metadata (fun _ => [1]) emptyStore
    " campus tips " (by with_unfolding_all decide) (by with_unfolding_all rfl)
  exact ⟨h.1, h.2.1, h.2.2.2.1⟩
